import Mathlib

/-!
Verification of the AudioFileConcatenator01 micro service (TypeScript sources:
src/modules/csvParser.ts, src/modules/audioProcessor.ts, src/types.ts).

The development shallowly embeds the CSV-row parser and the plan+execute core
(`combineAudioFiles`).  File-system effects are modelled as an explicit event
trace (`FSOp`) applied to an abstract file system given as a list of existing
paths; the external media tool (ffmpeg) is modelled by an `Oracle` deciding
which invocations succeed.  JavaScript numbers appearing in the claims are
exactly representable, so `ℚ` is used for durations.
-/

namespace AudioConcat

/-- The step record produced by the CSV parser (src/types.ts).
`audio_file_name_and_path` and `pause_duration` are optional fields. -/
structure AudioSequenceStep where
  id : String
  audio_file_name_and_path : Option String := none
  pause_duration : Option ℚ := none
deriving DecidableEq, Repr

/-- Result record returned by `combineAudioFiles` (src/types.ts). -/
structure ProcessingResult where
  outputPath : String
  audioLengthSeconds : ℚ
deriving DecidableEq, Repr

/-! ## JavaScript semantics helpers -/

/-- JavaScript string truthiness: every string except the empty one is truthy. -/
def strTruthy (s : String) : Bool := s != ""

/-- JavaScript `String.prototype.trim`: strip whitespace from both ends. -/
def jsTrim (s : String) : String :=
  String.mk (((s.data.dropWhile Char.isWhitespace).reverse.dropWhile Char.isWhitespace).reverse)

/-- Value of a list of decimal digit characters, most significant first. -/
def digitsToNat (ds : List Char) : ℕ :=
  ds.foldl (fun a c => 10 * a + (c.toNat - 48)) 0

/-- Mantissa part of JavaScript `parseFloat`: an optional run of integer
digits, an optional decimal point followed by an optional run of fraction
digits.  Returns the value and the unconsumed remainder, or `none` when no
digit at all was consumed (which makes `parseFloat` return NaN). -/
def parseMantissa (cs : List Char) : Option (ℚ × List Char) :=
  let int := cs.takeWhile Char.isDigit
  let rest := cs.dropWhile Char.isDigit
  let dotted : Bool × List Char :=
    match rest with
    | c :: rest2 => if c = '.' then (true, rest2) else (false, rest)
    | [] => (false, [])
  if dotted.1 then
    let frac := dotted.2.takeWhile Char.isDigit
    let rest3 := dotted.2.dropWhile Char.isDigit
    if int = [] ∧ frac = [] then none
    else some ((digitsToNat int : ℚ) + (digitsToNat frac : ℚ) / (10 : ℚ) ^ frac.length, rest3)
  else
    if int = [] then none else some ((digitsToNat int : ℚ), rest)

/-- Optional exponent part of JavaScript `parseFloat`: `e`/`E`, an optional
sign and a run of digits; consumed only when at least one digit follows, so
`parseFloat("1e")` is `1`. -/
def applyExponent (q : ℚ) (cs : List Char) : ℚ :=
  match cs with
  | [] => q
  | c :: rest =>
    if c = 'e' ∨ c = 'E' then
      let sr : Bool × List Char :=
        match rest with
        | d :: rest2 => if d = '+' then (false, rest2) else if d = '-' then (true, rest2) else (false, rest)
        | [] => (false, [])
      let ds := sr.2.takeWhile Char.isDigit
      if ds = [] then q
      else if sr.1 then q / (10 : ℚ) ^ digitsToNat ds else q * (10 : ℚ) ^ digitsToNat ds
    else q

/-- JavaScript `parseFloat` on a list of characters: skip leading whitespace,
optional sign, mantissa, optional exponent; the longest valid numeric head is
parsed and trailing characters are ignored.  `none` models NaN.  (The literal
`Infinity` accepted by JavaScript has no `ℚ` counterpart and no claim involves
it, so it parses as `none` here.) -/
def jsParseFloatCore (cs0 : List Char) : Option ℚ :=
  let cs := cs0.dropWhile Char.isWhitespace
  let signed : Bool × List Char :=
    match cs with
    | c :: rest => if c = '+' then (false, rest) else if c = '-' then (true, rest) else (false, cs)
    | [] => (false, [])
  match parseMantissa signed.2 with
  | none => none
  | some p =>
    let q := applyExponent p.1 p.2
    some (if signed.1 then -q else q)

/-- JavaScript `parseFloat` on a string. -/
def jsParseFloat (s : String) : Option ℚ := jsParseFloatCore s.data

/-! ## CSV parser (src/modules/csvParser.ts) -/

/-- One raw CSV data row as delivered by the `csv-parser` stream: the three
column values as strings (a missing column is the empty string, which is falsy
exactly like an `undefined` field in the source). -/
structure CSVRow where
  id : String
  audio_file_name_and_path : String
  pause_duration : String
deriving DecidableEq, Repr

/-- The per-row body of `parseAudioSequenceCSV`: build the step, copy the
trimmed clip path when the raw and trimmed strings are truthy, parse the pause
duration with `parseFloat` when its raw and trimmed strings are truthy, and on
NaN log a warning and clear the field.  The Bool records whether the warning
was logged. -/
def parseAudioSequenceRow (row : CSVRow) : AudioSequenceStep × Bool :=
  let withClip : AudioSequenceStep :=
    if strTruthy row.audio_file_name_and_path && strTruthy (jsTrim row.audio_file_name_and_path) then
      { id := row.id, audio_file_name_and_path := some (jsTrim row.audio_file_name_and_path) }
    else { id := row.id }
  if strTruthy row.pause_duration && strTruthy (jsTrim row.pause_duration) then
    match jsParseFloat row.pause_duration with
    | some q => ({ withClip with pause_duration := some q }, false)
    | none => (withClip, true)
  else (withClip, false)

/-- `parseAudioSequenceCSV` at the row-list level: every data row yields
exactly one step, in order (the surrounding file I/O and stream plumbing are
not modelled; a malformed row never rejects the promise). -/
def parseAudioSequenceCSV (rows : List CSVRow) : List AudioSequenceStep :=
  rows.map (fun r => (parseAudioSequenceRow r).1)

/-! ## Abstract file system and media-tool oracle -/

/-- File-system events performed by the audio processor: recursive directory
creation (`fs.mkdirSync { recursive: true }`), file creation
(`fs.writeFileSync` / an external tool writing its output), and recursive
forced removal (`fs.rmSync { recursive: true, force: true }`). -/
inductive FSOp where
  | mkdirRec (p : String)
  | write (p : String)
  | rmRec (p : String)
deriving DecidableEq, Repr

/-- Whether path `q` is the scratch directory `dir` itself or lies below it. -/
def inScratch (dir q : String) : Bool :=
  q == dir || (dir ++ "/").data.isPrefixOf q.data

/-- The abstract file system is the list of existing paths; applying an event
adds the created path or removes a directory with everything below it. -/
def applyOp (fs : List String) : FSOp → List String
  | .mkdirRec p => p :: fs
  | .write p => p :: fs
  | .rmRec p => fs.filter (fun q => !(inScratch p q))

/-- Apply a whole event trace, oldest event first. -/
def applyTrace (fs : List String) (t : List FSOp) : List String :=
  t.foldl applyOp fs

/-- Nondeterminism of the external media tool and of file I/O: which silence
syntheses succeed (per step index), whether the manifest write succeeds,
whether the concatenation succeeds, and the duration probe result (`none` is a
probe error, `some d` a measured duration). -/
structure Oracle where
  silenceOk : ℕ → Bool
  writeOk : Bool
  concatOk : Bool
  probeResult : Option ℚ

/-! ## Audio processor (src/modules/audioProcessor.ts) -/

/-- `path.join(projectResourcesPath, "temporary_deletable")`. -/
def pathJoin (a b : String) : String := a ++ "/" ++ b

/-- The per-run scratch directory of `combineAudioFiles`. -/
def tempDirOf (projectResourcesPath : String) : String :=
  pathJoin projectResourcesPath "temporary_deletable"

/-- Name of the silence file synthesized for step index `i`. -/
def silenceFileName (i : ℕ) : String := "silence-" ++ toString i ++ ".mp3"

/-- JavaScript truthiness of `step.audio_file_name_and_path`: the field must
be set and non-empty for the clip branch to run. -/
def clipOf (step : AudioSequenceStep) : Option String :=
  match step.audio_file_name_and_path with
  | some p => if p = "" then none else some p
  | none => none

/-- The planning loop of `combineAudioFiles`: walk the enumerated steps, push
the clip path for a truthy clip field, otherwise synthesize a silence file for
a defined positive pause (an event plus a pushed scratch path, or a failure
that aborts the loop), otherwise skip the step.  Returns the file-system
events and either the `filesToConcat` list or the propagated error. -/
def runSteps (o : Oracle) (tempDir : String) :
    List (ℕ × AudioSequenceStep) → List FSOp × Except String (List String)
  | [] => ([], Except.ok [])
  | (i, step) :: rest =>
    match clipOf step with
    | some p =>
      ((runSteps o tempDir rest).1,
       (runSteps o tempDir rest).2.map (fun files => p :: files))
    | none =>
      match step.pause_duration with
      | some d =>
        if 0 < d then
          if o.silenceOk i then
            (FSOp.write (pathJoin tempDir (silenceFileName i)) :: (runSteps o tempDir rest).1,
             (runSteps o tempDir rest).2.map
               (fun files => pathJoin tempDir (silenceFileName i) :: files))
          else ([], Except.error "Output file was not created")
        else runSteps o tempDir rest
      | none => runSteps o tempDir rest

/-- The body of the `try` block of `combineAudioFiles`: run the planning loop,
fail when the plan is empty, write the concat manifest, run the concatenation
re-encode, probe the output duration. -/
def bodyRun (o : Oracle) (tempDir : String) (steps : List AudioSequenceStep)
    (outputPath : String) : List FSOp × Except String ProcessingResult :=
  match (runSteps o tempDir steps.enum).2 with
  | Except.error e => ((runSteps o tempDir steps.enum).1, Except.error e)
  | Except.ok filesToConcat =>
    if filesToConcat.length = 0 then
      ((runSteps o tempDir steps.enum).1, Except.error "No audio files or pauses to process")
    else if o.writeOk = false then
      ((runSteps o tempDir steps.enum).1, Except.error "EIO: writeFileSync failed")
    else if o.concatOk = false then
      ((runSteps o tempDir steps.enum).1 ++ [FSOp.write (pathJoin tempDir "concat-list.txt")],
       Except.error "Error concatenating audio")
    else
      match o.probeResult with
      | none =>
        ((runSteps o tempDir steps.enum).1
           ++ [FSOp.write (pathJoin tempDir "concat-list.txt"), FSOp.write outputPath],
         Except.error "Error probing audio file")
      | some d =>
        ((runSteps o tempDir steps.enum).1
           ++ [FSOp.write (pathJoin tempDir "concat-list.txt"), FSOp.write outputPath],
         Except.ok { outputPath := outputPath, audioLengthSeconds := d })

/-- The unconditional `mkdirSync` guard at the top of `combineAudioFiles`:
create the scratch directory up front when it does not exist yet. -/
def mkdirEvents (fs0 : List String) (tempDir : String) : List FSOp :=
  if tempDir ∈ fs0 then [] else [FSOp.mkdirRec tempDir]

/-- The `finally` block of `combineAudioFiles`: remove the scratch directory
recursively when it exists. -/
def cleanupEvents (fsAfter : List String) (tempDir : String) : List FSOp :=
  if tempDir ∈ fsAfter then [FSOp.rmRec tempDir] else []

/-- `combineAudioFiles(steps, outputPath, projectResourcesPath)` against an
initial file system `fs0` and a tool oracle `o`: scratch-directory creation,
the `try` body, then the `finally` cleanup; the call result is the body result
(a `ProcessingResult` or the propagated error). -/
def combineAudioFiles (o : Oracle) (fs0 : List String) (steps : List AudioSequenceStep)
    (outputPath projectResourcesPath : String) :
    List FSOp × Except String ProcessingResult :=
  ((mkdirEvents fs0 (tempDirOf projectResourcesPath)
      ++ (bodyRun o (tempDirOf projectResourcesPath) steps outputPath).1)
    ++ cleanupEvents
        (applyTrace fs0 (mkdirEvents fs0 (tempDirOf projectResourcesPath)
            ++ (bodyRun o (tempDirOf projectResourcesPath) steps outputPath).1))
        (tempDirOf projectResourcesPath),
   (bodyRun o (tempDirOf projectResourcesPath) steps outputPath).2)

/-! ## Concat manifest (src/modules/audioProcessor.ts, concat list) -/

/-- The single-quote character. -/
def squote : Char := Char.ofNat 39

/-- The backslash character. -/
def bslash : Char := Char.ofNat 92

/-- The newline character. -/
def nlChar : Char := Char.ofNat 10

/-- `file.replace(/'/g, "'\\''")` at the character level: each single quote
becomes quote, backslash, quote, quote. -/
def escList : List Char → List Char
  | [] => []
  | c :: cs =>
    if c = squote then squote :: bslash :: squote :: squote :: escList cs
    else c :: escList cs

/-- The escaping applied to each path before it is put into the manifest. -/
def escapeQuotes (s : String) : String := String.mk (escList s.data)

/-- A one-character string holding the single quote. -/
def squoteStr : String := String.mk [squote]

/-- One manifest line in ffmpeg concat-list syntax. -/
def manifestLine (p : String) : String :=
  "file " ++ squoteStr ++ escapeQuotes p ++ squoteStr

/-- `Array.prototype.join("\n")`. -/
def joinLines : List String → String
  | [] => ""
  | [x] => x
  | x :: y :: xs => x ++ "\n" ++ joinLines (y :: xs)

/-- The full text written to `concat-list.txt` for a segment plan. -/
def manifestContent (paths : List String) : String :=
  joinLines (paths.map manifestLine)

/-- Split a character list at newline characters (what a line-oriented reader
of the manifest sees). -/
def splitNl : List Char → List (List Char)
  | [] => [[]]
  | c :: cs =>
    if c = nlChar then [] :: splitNl cs
    else
      match splitNl cs with
      | [] => [[c]]
      | l :: ls => (c :: l) :: ls

/-- The quoting language of ffmpeg concat lists (also of POSIX shell words),
as a character state machine: outside quotes a backslash escapes the next
character and a single quote toggles into quoted mode; inside quotes every
character is literal until the closing quote.  `inQ` is the in-quote state and
`esc` a pending backslash escape.  Returns the decoded text, or `none` for an
unterminated quote or dangling backslash: `some` means the token is
syntactically valid. -/
def unquoteAux : List Char → Bool → Bool → Option (List Char)
  | [], inQ, esc => if inQ || esc then none else some []
  | c :: cs, inQ, esc =>
    if esc then (unquoteAux cs false false).map (fun l => c :: l)
    else if inQ then
      if c = squote then unquoteAux cs false false
      else (unquoteAux cs true false).map (fun l => c :: l)
    else
      if c = squote then unquoteAux cs true false
      else if c = bslash then unquoteAux cs false true
      else (unquoteAux cs false false).map (fun l => c :: l)

/-- Decode a whole token starting with no pending escape. -/
def unquote (cs : List Char) (inQ : Bool) : Option (List Char) :=
  unquoteAux cs inQ false

/-! ## Silence synthesis and output profile (src/modules/audioProcessor.ts) -/

/-- Sample rate requested from `anullsrc` in `generateSilence`. -/
def silenceAnullsrcRate : ℕ := 44100

/-- Channel layout requested from `anullsrc` in `generateSilence`. -/
def silenceAnullsrcLayout : String := "stereo"

/-- Audio codec passed as `-c:a` in `generateSilence`. -/
def silenceCodec : String := "libmp3lame"

/-- Audio bitrate passed as `-b:a` in `generateSilence`. -/
def silenceBitrate : String := "128k"

/-- The command string built by `generateSilence`. -/
def generateSilenceCmd (ffmpegPath : String) (durationSeconds : ℚ) (outputPath : String) :
    String :=
  ffmpegPath ++ " -f lavfi -i anullsrc=r=" ++ toString silenceAnullsrcRate
    ++ ":cl=" ++ silenceAnullsrcLayout
    ++ " -t " ++ toString durationSeconds
    ++ " -c:a " ++ silenceCodec ++ " -b:a " ++ silenceBitrate
    ++ " -y \"" ++ outputPath ++ "\""

/-- The fluent-ffmpeg output options set on the concatenation invocation in
`combineAudioFiles`. -/
structure ConcatOutputOptions where
  audioCodec : String
  audioBitrate : String
  audioFrequency : ℕ
  audioChannels : ℕ
deriving DecidableEq, Repr

/-- `.audioCodec("libmp3lame").audioBitrate("128k").audioFrequency(44100)
.audioChannels(2)` from the concatenation step. -/
def concatOutputOptions : ConcatOutputOptions :=
  { audioCodec := "libmp3lame"
    audioBitrate := "128k"
    audioFrequency := 44100
    audioChannels := 2 }

/-- Channel count denoted by an ffmpeg channel-layout name (only the layouts
relevant here). -/
def channelsOfLayout (l : String) : ℕ :=
  if l = "mono" then 1 else if l = "stereo" then 2 else 0

/-! ## Helper lemmas -/

lemma strTruthy_of_ne {s : String} (h : s ≠ "") : strTruthy s = true := by
  simp [strTruthy, h]

lemma ne_empty_of_jsTrim_ne {s : String} (h : jsTrim s ≠ "") : s ≠ "" := by
  intro he
  apply h
  rw [he]
  rfl

/-! ## Claim C6: fixed output profile -/

/-- Claim C6: the concatenation step re-encodes to the fixed profile
(libmp3lame, 128k, 44100 Hz, 2 channels) rather than stream-copying, and the
synthesized silence uses the same codec, bitrate, sample rate and channel
count as that output profile. -/
theorem fixed_output_profile :
    concatOutputOptions.audioCodec = "libmp3lame"
    ∧ concatOutputOptions.audioCodec ≠ "copy"
    ∧ concatOutputOptions.audioBitrate = "128k"
    ∧ concatOutputOptions.audioFrequency = 44100
    ∧ concatOutputOptions.audioChannels = 2
    ∧ silenceCodec = concatOutputOptions.audioCodec
    ∧ silenceBitrate = concatOutputOptions.audioBitrate
    ∧ silenceAnullsrcRate = concatOutputOptions.audioFrequency
    ∧ channelsOfLayout silenceAnullsrcLayout = concatOutputOptions.audioChannels := by
  refine ⟨rfl, ?_, rfl, rfl, rfl, rfl, rfl, rfl, rfl⟩
  decide

/-! ## Claim C3: clip-only sequences plan verbatim -/

lemma runSteps_enumFrom_clips (o : Oracle) (td : String) :
    ∀ (n : ℕ) (steps : List AudioSequenceStep),
      (∀ s ∈ steps, ∃ p, s.audio_file_name_and_path = some p ∧ p ≠ "") →
      runSteps o td (List.enumFrom n steps)
        = ([], Except.ok (steps.map (fun s => s.audio_file_name_and_path.getD "")))
  | _, [], _ => by simp [List.enumFrom, runSteps]
  | n, s :: ss, h => by
    obtain ⟨p, hp, hpne⟩ := h s (List.mem_cons_self s ss)
    have ih := runSteps_enumFrom_clips o td (n + 1) ss
      (fun x hx => h x (List.mem_cons_of_mem _ hx))
    simp [List.enumFrom, runSteps, clipOf, hp, hpne, ih, Except.map]

/-- Claim C3: for a sequence consisting only of steps with a (non-empty) clip
reference, the planning loop performs no file-system event, raises no error,
and produces exactly the list of clip reference paths in original order. -/
theorem runSteps_all_clips_plan (o : Oracle) (td : String) (steps : List AudioSequenceStep)
    (h : ∀ s ∈ steps, ∃ p, s.audio_file_name_and_path = some p ∧ p ≠ "") :
    runSteps o td steps.enum
      = ([], Except.ok (steps.map (fun s => s.audio_file_name_and_path.getD ""))) := by
  rw [List.enum_eq_enumFrom]
  exact runSteps_enumFrom_clips o td 0 steps h

/-- Witness for C3 at a concrete two-clip sequence. -/
theorem runSteps_all_clips_plan_witness :
    (∀ s ∈ ([{ id := "1", audio_file_name_and_path := some "/a.mp3" },
             { id := "2", audio_file_name_and_path := some "/b.mp3" }] : List AudioSequenceStep),
        ∃ p, s.audio_file_name_and_path = some p ∧ p ≠ "")
    ∧ runSteps ⟨fun _ => true, true, true, some 0⟩ "/r/temporary_deletable"
        ([{ id := "1", audio_file_name_and_path := some "/a.mp3" },
          { id := "2", audio_file_name_and_path := some "/b.mp3" }] : List AudioSequenceStep).enum
        = ([], Except.ok ["/a.mp3", "/b.mp3"]) := by
  have hA : ∀ s ∈ ([{ id := "1", audio_file_name_and_path := some "/a.mp3" },
             { id := "2", audio_file_name_and_path := some "/b.mp3" }] : List AudioSequenceStep),
      ∃ p, s.audio_file_name_and_path = some p ∧ p ≠ "" := by
    intro s hs
    fin_cases hs
    · exact ⟨"/a.mp3", rfl, by decide⟩
    · exact ⟨"/b.mp3", rfl, by decide⟩
  refine ⟨hA, ?_⟩
  have h := runSteps_all_clips_plan ⟨fun _ => true, true, true, some 0⟩
    "/r/temporary_deletable" _ hA
  simpa using h

/-! ## Claim C4: non-positive or unset pauses are skipped -/

lemma runSteps_cons_congr (o : Oracle) (td : String) (j : ℕ) (t : AudioSequenceStep)
    {A B : List (ℕ × AudioSequenceStep)} (h : runSteps o td A = runSteps o td B) :
    runSteps o td ((j, t) :: A) = runSteps o td ((j, t) :: B) := by
  cases hc : clipOf t with
  | some p => simp [runSteps, hc, h]
  | none =>
    cases hd : t.pause_duration with
    | some d =>
      by_cases hpos : 0 < d
      · by_cases hok : o.silenceOk j
        · simp [runSteps, hc, hd, hpos, hok, h]
        · simp [runSteps, hc, hd, hpos, hok]
      · simp [runSteps, hc, hd, hpos, h]
    | none => simp [runSteps, hc, hd, h]

lemma runSteps_skip_aux (o : Oracle) (td : String) (i : ℕ) (s : AudioSequenceStep)
    (post : List (ℕ × AudioSequenceStep)) (h1 : clipOf s = none)
    (h2 : s.pause_duration.getD 0 ≤ 0) :
    ∀ pre, runSteps o td (pre ++ (i, s) :: post) = runSteps o td (pre ++ post)
  | [] => by
    cases hd : s.pause_duration with
    | none => simp [runSteps, h1, hd]
    | some d =>
      have hnp : ¬ 0 < d := by
        rw [hd] at h2
        simpa using h2
      simp [runSteps, h1, hd, hnp]
  | (j, t) :: pre => by
    have ih := runSteps_skip_aux o td i s post h1 h2 pre
    simpa using runSteps_cons_congr o td j t ih

/-- Claim C4: a step whose clip field is not (truthily) set and whose pause
duration is unset or non-positive contributes nothing to the planning loop: no
plan element, no silence-synthesis event, no error, and every other step is
processed exactly as without it. -/
theorem runSteps_skip_nonpositive_pause (o : Oracle) (td : String)
    (pre post : List (ℕ × AudioSequenceStep)) (i : ℕ) (s : AudioSequenceStep)
    (h1 : clipOf s = none) (h2 : s.pause_duration.getD 0 ≤ 0) :
    runSteps o td (pre ++ (i, s) :: post) = runSteps o td (pre ++ post) :=
  runSteps_skip_aux o td i s post h1 h2 pre

/-- Witness for C4: a zero-duration pause step between a clip and a positive
pause is skipped. -/
theorem runSteps_skip_nonpositive_pause_witness :
    (clipOf { id := "2", pause_duration := some 0 } = none
      ∧ (AudioSequenceStep.pause_duration { id := "2", pause_duration := some 0 }).getD 0 ≤ 0)
    ∧ runSteps ⟨fun _ => true, true, true, some 0⟩ "/r/temporary_deletable"
        ([(0, { id := "1", audio_file_name_and_path := some "/a.mp3" })]
          ++ (1, { id := "2", pause_duration := some 0 })
            :: [(2, { id := "3", pause_duration := some 2 })])
      = runSteps ⟨fun _ => true, true, true, some 0⟩ "/r/temporary_deletable"
        ([(0, { id := "1", audio_file_name_and_path := some "/a.mp3" })]
          ++ [(2, { id := "3", pause_duration := some 2 })]) := by
  refine ⟨⟨by decide, by decide⟩, ?_⟩
  exact runSteps_skip_nonpositive_pause ⟨fun _ => true, true, true, some 0⟩
    "/r/temporary_deletable" _ _ 1 _ (by decide) (by decide)

/-! ## Claim C2: an empty plan is an error -/

lemma runSteps_enumFrom_skip (o : Oracle) (td : String) :
    ∀ (n : ℕ) (steps : List AudioSequenceStep),
      (∀ s ∈ steps, clipOf s = none ∧ s.pause_duration.getD 0 ≤ 0) →
      runSteps o td (List.enumFrom n steps) = ([], Except.ok [])
  | _, [], _ => by simp [List.enumFrom, runSteps]
  | n, s :: ss, h => by
    obtain ⟨h1, h2⟩ := h s (List.mem_cons_self s ss)
    have ih := runSteps_enumFrom_skip o td (n + 1) ss
      (fun x hx => h x (List.mem_cons_of_mem _ hx))
    have hskip := runSteps_skip_aux o td n s (List.enumFrom (n + 1) ss) h1 h2 []
    simp only [List.nil_append] at hskip
    simpa [List.enumFrom, hskip] using ih

/-- Claim C2: when no step has a truthy clip reference and no step has a
defined positive pause duration, `combineAudioFiles` fails with the
nothing-to-process error and returns no result. -/
theorem combineAudioFiles_empty_plan_error (o : Oracle) (fs0 : List String)
    (steps : List AudioSequenceStep) (outputPath projectResourcesPath : String)
    (h : ∀ s ∈ steps, clipOf s = none ∧ s.pause_duration.getD 0 ≤ 0) :
    (combineAudioFiles o fs0 steps outputPath projectResourcesPath).2
      = Except.error "No audio files or pauses to process" := by
  have hl : runSteps o (tempDirOf projectResourcesPath) steps.enum = ([], Except.ok []) := by
    rw [List.enum_eq_enumFrom]
    exact runSteps_enumFrom_skip o (tempDirOf projectResourcesPath) 0 steps h
  simp [combineAudioFiles, bodyRun, hl]

/-- Witness for C2: a sequence holding only a zero pause and a step with no
fields set produces the nothing-to-process error. -/
theorem combineAudioFiles_empty_plan_error_witness :
    (∀ s ∈ ([{ id := "1", pause_duration := some 0 }, { id := "2" }] : List AudioSequenceStep),
        clipOf s = none ∧ s.pause_duration.getD 0 ≤ 0)
    ∧ (combineAudioFiles ⟨fun _ => true, true, true, some 0⟩ ["/res"]
        [{ id := "1", pause_duration := some 0 }, { id := "2" }] "/out.mp3" "/res").2
      = Except.error "No audio files or pauses to process" := by
  refine ⟨by decide, ?_⟩
  exact combineAudioFiles_empty_plan_error ⟨fun _ => true, true, true, some 0⟩ ["/res"]
    _ "/out.mp3" "/res" (by decide)

/-! ## Claim C8: non-numeric pause durations are cleared with a warning -/

/-- Claim C8: a row whose pause column is present (truthy raw and trimmed
value) but parses to NaN yields a warning, a step with the pause field
cleared (and, with no clip column, no other field), the step still appears at
its place in the parsed sequence with no row dropped, and the planner then
skips it without an event or error. -/
theorem parse_invalid_pause_cleared (row : CSVRow) (pre post : List CSVRow)
    (o : Oracle) (td : String) (i : ℕ)
    (hp : jsTrim row.pause_duration ≠ "")
    (hnan : jsParseFloat row.pause_duration = none)
    (hclip : jsTrim row.audio_file_name_and_path = "") :
    (parseAudioSequenceRow row).2 = true
    ∧ (parseAudioSequenceRow row).1 = { id := row.id }
    ∧ parseAudioSequenceCSV (pre ++ row :: post)
        = parseAudioSequenceCSV pre
            ++ (parseAudioSequenceRow row).1 :: parseAudioSequenceCSV post
    ∧ runSteps o td [(i, (parseAudioSequenceRow row).1)] = ([], Except.ok []) := by
  have hraw : row.pause_duration ≠ "" := ne_empty_of_jsTrim_ne hp
  have hrow : parseAudioSequenceRow row = ({ id := row.id }, true) := by
    simp [parseAudioSequenceRow, strTruthy, hclip, hraw, hp, hnan]
  refine ⟨by rw [hrow], by rw [hrow], by simp [parseAudioSequenceCSV], ?_⟩
  rw [hrow]
  simp [runSteps, clipOf]

/-- Witness for C8 at the row (id 7, no clip, pause column "abc"). -/
theorem parse_invalid_pause_cleared_witness :
    (jsTrim (CSVRow.pause_duration ⟨"7", "", "abc"⟩) ≠ ""
      ∧ jsParseFloat (CSVRow.pause_duration ⟨"7", "", "abc"⟩) = none
      ∧ jsTrim (CSVRow.audio_file_name_and_path ⟨"7", "", "abc"⟩) = "")
    ∧ (parseAudioSequenceRow ⟨"7", "", "abc"⟩).2 = true
    ∧ (parseAudioSequenceRow ⟨"7", "", "abc"⟩).1 = { id := "7" }
    ∧ parseAudioSequenceCSV ([⟨"1", "/a.mp3", ""⟩] ++ ⟨"7", "", "abc"⟩ :: [⟨"2", "", "4"⟩])
        = parseAudioSequenceCSV [⟨"1", "/a.mp3", ""⟩]
            ++ (parseAudioSequenceRow ⟨"7", "", "abc"⟩).1
              :: parseAudioSequenceCSV [⟨"2", "", "4"⟩]
    ∧ runSteps ⟨fun _ => true, true, true, some 0⟩ "/r/temporary_deletable"
        [(1, (parseAudioSequenceRow ⟨"7", "", "abc"⟩).1)] = ([], Except.ok []) := by
  refine ⟨⟨by decide, by decide, by decide⟩, ?_⟩
  exact parse_invalid_pause_cleared ⟨"7", "", "abc"⟩ [⟨"1", "/a.mp3", ""⟩] [⟨"2", "", "4"⟩]
    ⟨fun _ => true, true, true, some 0⟩ "/r/temporary_deletable" 1
    (by decide) (by decide) (by decide)

/-! ## Claim C9: a clip reference wins over a simultaneous pause -/

/-- Claim C9: for a row violating the exactly-one-field invariant (truthy clip
column and a positive numeric pause column), the parser keeps both fields on
the step, and the planner appends only the clip path: no silence-synthesis
event, no error, the pause silently ignored. -/
theorem clip_wins_over_pause (row : CSVRow) (o : Oracle) (td : String) (i : ℕ) (q : ℚ)
    (hclip : jsTrim row.audio_file_name_and_path ≠ "")
    (hp : jsTrim row.pause_duration ≠ "")
    (hq : jsParseFloat row.pause_duration = some q) (_hqpos : 0 < q) :
    (parseAudioSequenceRow row).1.audio_file_name_and_path
        = some (jsTrim row.audio_file_name_and_path)
    ∧ (parseAudioSequenceRow row).1.pause_duration = some q
    ∧ runSteps o td [(i, (parseAudioSequenceRow row).1)]
        = ([], Except.ok [jsTrim row.audio_file_name_and_path]) := by
  have hrawc : row.audio_file_name_and_path ≠ "" := ne_empty_of_jsTrim_ne hclip
  have hrawp : row.pause_duration ≠ "" := ne_empty_of_jsTrim_ne hp
  have hrow : parseAudioSequenceRow row
      = ({ id := row.id,
           audio_file_name_and_path := some (jsTrim row.audio_file_name_and_path),
           pause_duration := some q }, false) := by
    simp [parseAudioSequenceRow, strTruthy, hclip, hrawc, hrawp, hp, hq]
  rw [hrow]
  refine ⟨rfl, rfl, ?_⟩
  simp [runSteps, clipOf, hclip, Except.map]

/-- Witness for C9 at the row (id 5, clip " /a.mp3 ", pause "2"). -/
theorem clip_wins_over_pause_witness :
    (jsTrim (CSVRow.audio_file_name_and_path ⟨"5", " /a.mp3 ", "2"⟩) ≠ ""
      ∧ jsTrim (CSVRow.pause_duration ⟨"5", " /a.mp3 ", "2"⟩) ≠ ""
      ∧ jsParseFloat (CSVRow.pause_duration ⟨"5", " /a.mp3 ", "2"⟩) = some 2
      ∧ (0 : ℚ) < 2)
    ∧ (parseAudioSequenceRow ⟨"5", " /a.mp3 ", "2"⟩).1.audio_file_name_and_path
        = some (jsTrim " /a.mp3 ")
    ∧ (parseAudioSequenceRow ⟨"5", " /a.mp3 ", "2"⟩).1.pause_duration = some 2
    ∧ runSteps ⟨fun _ => true, true, true, some 0⟩ "/r/temporary_deletable"
        [(0, (parseAudioSequenceRow ⟨"5", " /a.mp3 ", "2"⟩).1)]
        = ([], Except.ok [jsTrim " /a.mp3 "]) := by
  refine ⟨⟨by decide, by decide, by decide, by decide⟩, ?_⟩
  exact clip_wins_over_pause ⟨"5", " /a.mp3 ", "2"⟩
    ⟨fun _ => true, true, true, some 0⟩ "/r/temporary_deletable" 0 2
    (by decide) (by decide) (by decide) (by decide)

/-! ## Claim C1: the scratch directory never survives a call -/

/-- Whether an event is a recursive removal. -/
def isRm : FSOp → Bool
  | FSOp.rmRec _ => true
  | _ => false

lemma mem_applyOp_of_not_rm {x : String} {fs : List String} {op : FSOp}
    (hx : x ∈ fs) (h : isRm op = false) : x ∈ applyOp fs op := by
  cases op with
  | mkdirRec p => exact List.mem_cons_of_mem _ hx
  | write p => exact List.mem_cons_of_mem _ hx
  | rmRec p => simp [isRm] at h

lemma mem_applyTrace_of_no_rm :
    ∀ (t : List FSOp) (fs : List String) (x : String),
      x ∈ fs → (∀ op ∈ t, isRm op = false) → x ∈ applyTrace fs t
  | [], _, _, hx, _ => hx
  | op :: t, fs, x, hx, h => by
    have h1 := h op (List.mem_cons_self op t)
    have := mem_applyTrace_of_no_rm t (applyOp fs op) x
      (mem_applyOp_of_not_rm hx h1) (fun o ho => h o (List.mem_cons_of_mem _ ho))
    simpa [applyTrace] using this

lemma runSteps_no_rm (o : Oracle) (td : String) :
    ∀ l, ∀ op ∈ (runSteps o td l).1, isRm op = false
  | [], op, hop => by simp [runSteps] at hop
  | (i, s) :: rest, op, hop => by
    have ih := runSteps_no_rm o td rest
    cases hc : clipOf s with
    | some p =>
      rw [runSteps] at hop
      simp only [hc] at hop
      exact ih op hop
    | none =>
      cases hd : s.pause_duration with
      | some d =>
        by_cases hpos : 0 < d
        · by_cases hok : o.silenceOk i
          · rw [runSteps] at hop
            simp only [hc, hd, if_pos hpos, hok, if_true, List.mem_cons] at hop
            rcases hop with rfl | hop
            · rfl
            · exact ih op hop
          · rw [runSteps] at hop
            simp [hc, hd, if_pos hpos, hok] at hop
        · rw [runSteps] at hop
          simp only [hc, hd, if_neg hpos] at hop
          exact ih op hop
      | none =>
        rw [runSteps] at hop
        simp only [hc, hd] at hop
        exact ih op hop

lemma bodyRun_trace_cases (o : Oracle) (td : String) (steps : List AudioSequenceStep)
    (out : String) :
    (bodyRun o td steps out).1 = (runSteps o td steps.enum).1
    ∨ (bodyRun o td steps out).1
        = (runSteps o td steps.enum).1 ++ [FSOp.write (pathJoin td "concat-list.txt")]
    ∨ (bodyRun o td steps out).1
        = (runSteps o td steps.enum).1
            ++ [FSOp.write (pathJoin td "concat-list.txt"), FSOp.write out] := by
  rw [bodyRun]
  split
  · exact Or.inl rfl
  · split_ifs
    · exact Or.inl rfl
    · exact Or.inl rfl
    · exact Or.inr (Or.inl rfl)
    · split
      · exact Or.inr (Or.inr rfl)
      · exact Or.inr (Or.inr rfl)

lemma bodyRun_no_rm (o : Oracle) (td : String) (steps : List AudioSequenceStep)
    (outputPath : String) :
    ∀ op ∈ (bodyRun o td steps outputPath).1, isRm op = false := by
  intro op hop
  have hloop := runSteps_no_rm o td steps.enum
  rcases bodyRun_trace_cases o td steps outputPath with h | h | h <;> rw [h] at hop
  · exact hloop op hop
  · rcases List.mem_append.mp hop with hm | hm
    · exact hloop op hm
    · simp at hm
      rw [hm]
      rfl
  · rcases List.mem_append.mp hop with hm | hm
    · exact hloop op hm
    · simp at hm
      rcases hm with rfl | rfl <;> rfl

/-- Claim C1: after any call to `combineAudioFiles` — whatever the steps and
whichever of the silence syntheses, the manifest write, the concatenation or
the duration probe fail — neither the scratch directory
`<projectResourcesPath>/temporary_deletable` nor any path below it exists in
the resulting file system. -/
theorem combineAudioFiles_scratch_removed (o : Oracle) (fs0 : List String)
    (steps : List AudioSequenceStep) (outputPath projectResourcesPath : String) (q : String)
    (hq : q ∈ applyTrace fs0
        (combineAudioFiles o fs0 steps outputPath projectResourcesPath).1) :
    inScratch (tempDirOf projectResourcesPath) q = false := by
  set td := tempDirOf projectResourcesPath with htd
  set B := mkdirEvents fs0 td ++ (bodyRun o td steps outputPath).1 with hB
  have hnorm : ∀ op ∈ B, isRm op = false := by
    intro op hop
    rcases List.mem_append.mp hop with h | h
    · rw [mkdirEvents] at h
      by_cases h0 : td ∈ fs0
      · rw [if_pos h0] at h
        simp at h
      · rw [if_neg h0] at h
        simp at h
        rw [h]
        rfl
    · exact bodyRun_no_rm o td steps outputPath op h
  have hmem : td ∈ applyTrace fs0 B := by
    by_cases h0 : td ∈ fs0
    · exact mem_applyTrace_of_no_rm B fs0 td h0 hnorm
    · have hBc : B = FSOp.mkdirRec td :: (bodyRun o td steps outputPath).1 := by
        rw [hB, mkdirEvents, if_neg h0]
        rfl
      rw [hBc]
      have hx : td ∈ applyOp fs0 (FSOp.mkdirRec td) := List.mem_cons_self _ _
      have htail : ∀ op ∈ (bodyRun o td steps outputPath).1, isRm op = false := by
        intro op hop
        exact hnorm op (by rw [hBc]; exact List.mem_cons_of_mem _ hop)
      have := mem_applyTrace_of_no_rm (bodyRun o td steps outputPath).1
        (applyOp fs0 (FSOp.mkdirRec td)) td hx htail
      simpa [applyTrace] using this
  have htr : (combineAudioFiles o fs0 steps outputPath projectResourcesPath).1
      = B ++ [FSOp.rmRec td] := by
    rw [combineAudioFiles]
    rw [← htd, ← hB, cleanupEvents, if_pos hmem]
  rw [htr, applyTrace, List.foldl_append] at hq
  simp only [List.foldl_cons, List.foldl_nil, applyOp] at hq
  rcases List.mem_filter.mp hq with ⟨_, hcond⟩
  simpa using hcond

/-- Witness for C1: a concrete run in which an unrelated pre-existing path
survives and is indeed not under the scratch directory. -/
theorem combineAudioFiles_scratch_removed_witness :
    "/keep" ∈ applyTrace ["/keep"]
        (combineAudioFiles ⟨fun _ => true, true, true, some 0⟩ ["/keep"]
          [{ id := "1", pause_duration := some 2 }] "/out.mp3" "/res").1
    ∧ inScratch (tempDirOf "/res") "/keep" = false := by
  refine ⟨by decide, ?_⟩
  exact combineAudioFiles_scratch_removed ⟨fun _ => true, true, true, some 0⟩ ["/keep"]
    [{ id := "1", pause_duration := some 2 }] "/out.mp3" "/res" "/keep" (by decide)

/-! ## Claim C7: scratch directory creation time -/

/-- Claim C7 counterexample: the claim says a run whose plan requires no
generated artifact never creates the scratch directory, but a call on an empty
sequence (no silence file, no manifest ever written — the run fails with the
empty-plan error first) still performs the `mkdirRec` event: the full trace is
exactly a creation followed by the cleanup removal, with no write ever
happening. -/
theorem scratch_created_without_artifacts :
    (combineAudioFiles ⟨fun _ => true, true, true, some 0⟩ ["/res"] [] "/out.mp3" "/res").1
      = [FSOp.mkdirRec "/res/temporary_deletable", FSOp.rmRec "/res/temporary_deletable"] := by
  decide

/-- Claim C7 amended: the scratch directory is created eagerly — whenever it
does not already exist, the very first file-system event of every call to
`combineAudioFiles` is its creation, before any planning or artifact write,
even when the run will need no generated artifact (it is still deleted by the
end of the call, per C1). -/
theorem scratch_created_eagerly (o : Oracle) (fs0 : List String)
    (steps : List AudioSequenceStep) (outputPath projectResourcesPath : String)
    (h : tempDirOf projectResourcesPath ∉ fs0) :
    (combineAudioFiles o fs0 steps outputPath projectResourcesPath).1.head?
      = some (FSOp.mkdirRec (tempDirOf projectResourcesPath)) := by
  rw [combineAudioFiles, mkdirEvents, if_neg h]
  rfl

/-- Witness for C7's amended claim at a concrete run. -/
theorem scratch_created_eagerly_witness :
    tempDirOf "/res" ∉ ["/other"]
    ∧ (combineAudioFiles ⟨fun _ => true, true, true, some 0⟩ ["/other"]
        [{ id := "1", audio_file_name_and_path := some "/a.mp3" }] "/out.mp3" "/res").1.head?
      = some (FSOp.mkdirRec (tempDirOf "/res")) := by
  refine ⟨by decide, ?_⟩
  exact scratch_created_eagerly ⟨fun _ => true, true, true, some 0⟩ ["/other"]
    [{ id := "1", audio_file_name_and_path := some "/a.mp3" }] "/out.mp3" "/res" (by decide)

/-! ## Claim C5: manifest shape and quote escaping -/

lemma mem_escList : ∀ (cs : List Char) (c : Char),
    c ∈ escList cs → c ∈ cs ∨ c = squote ∨ c = bslash
  | [], c, h => by simp [escList] at h
  | a :: cs, c, h => by
    by_cases ha : a = squote
    · rw [escList, if_pos ha] at h
      simp only [List.mem_cons] at h
      rcases h with rfl | rfl | rfl | rfl | h
      · exact Or.inr (Or.inl rfl)
      · exact Or.inr (Or.inr rfl)
      · exact Or.inr (Or.inl rfl)
      · exact Or.inr (Or.inl rfl)
      · rcases mem_escList cs c h with hc | hc
        · exact Or.inl (List.mem_cons_of_mem _ hc)
        · exact Or.inr hc
    · rw [escList, if_neg ha] at h
      simp only [List.mem_cons] at h
      rcases h with rfl | h
      · exact Or.inl (List.mem_cons_self _ _)
      · rcases mem_escList cs c h with hc | hc
        · exact Or.inl (List.mem_cons_of_mem _ hc)
        · exact Or.inr hc

lemma nl_not_mem_escList {cs : List Char} (h : nlChar ∉ cs) : nlChar ∉ escList cs := by
  intro hm
  rcases mem_escList cs nlChar hm with hc | hc | hc
  · exact h hc
  · exact absurd hc (by decide)
  · exact absurd hc (by decide)

lemma manifestLine_data (p : String) :
    (manifestLine p).data = "file ".data ++ squote :: (escList p.data ++ [squote]) := by
  rw [manifestLine]
  rw [String.data_append, String.data_append, String.data_append]
  rfl

lemma nl_not_mem_manifestLine {p : String} (h : nlChar ∉ p.data) :
    nlChar ∉ (manifestLine p).data := by
  rw [manifestLine_data]
  intro hm
  rcases List.mem_append.mp hm with hc | hc
  · exact absurd hc (by decide)
  · rcases List.mem_cons.mp hc with hc2 | hc2
    · exact absurd hc2 (by decide)
    · rcases List.mem_append.mp hc2 with hc3 | hc3
      · exact nl_not_mem_escList h hc3
      · exact absurd hc3 (by decide)

lemma splitNl_single : ∀ (cs : List Char), nlChar ∉ cs → splitNl cs = [cs]
  | [], _ => rfl
  | c :: cs, h => by
    have hc : ¬ c = nlChar := fun he => h (he ▸ List.mem_cons_self c cs)
    have ih := splitNl_single cs (fun hm => h (List.mem_cons_of_mem _ hm))
    rw [splitNl, if_neg hc, ih]

lemma splitNl_append : ∀ (l1 rest : List Char), nlChar ∉ l1 →
    splitNl (l1 ++ nlChar :: rest) = l1 :: splitNl rest
  | [], rest, _ => by rw [List.nil_append, splitNl, if_pos rfl]
  | c :: l1, rest, h => by
    have hc : ¬ c = nlChar := fun he => h (he ▸ List.mem_cons_self c l1)
    have ih := splitNl_append l1 rest (fun hm => h (List.mem_cons_of_mem _ hm))
    rw [List.cons_append, splitNl, if_neg hc, ih]

lemma splitNl_manifest : ∀ (paths : List String), paths ≠ [] →
    (∀ p ∈ paths, nlChar ∉ p.data) →
    splitNl (manifestContent paths).data = paths.map (fun p => (manifestLine p).data)
  | [], h, _ => absurd rfl h
  | [p], _, hnl => by
    rw [manifestContent]
    simp only [List.map]
    rw [joinLines]
    exact splitNl_single _ (nl_not_mem_manifestLine (hnl p (List.mem_cons_self p [])))
  | p :: p2 :: rest, _, hnl => by
    have ih := splitNl_manifest (p2 :: rest) (by simp)
      (fun x hx => hnl x (List.mem_cons_of_mem _ hx))
    have hjoin : manifestContent (p :: p2 :: rest)
        = manifestLine p ++ "\n" ++ manifestContent (p2 :: rest) := by
      rw [manifestContent, manifestContent]
      simp only [List.map]
      rw [joinLines, String.append_assoc]
    have hdata : (manifestContent (p :: p2 :: rest)).data
        = (manifestLine p).data ++ nlChar :: (manifestContent (p2 :: rest)).data := by
      rw [hjoin, String.data_append, String.data_append, List.append_assoc]
      rfl
    rw [hdata, splitNl_append _ _ (nl_not_mem_manifestLine (hnl p (List.mem_cons_self _ _))), ih]
    rfl

lemma unquote_escList : ∀ (cs : List Char), unquoteAux (escList cs ++ [squote]) true false = some cs
  | [] => by simp [escList, unquoteAux]
  | c :: cs => by
    have ih := unquote_escList cs
    by_cases hc : c = squote
    · subst hc
      have hbs : ¬ bslash = squote := by decide
      simp [escList, unquoteAux, hbs, ih]
    · simp [escList, unquoteAux, hc, ih]

/-- Claim C5: for every non-empty segment plan (of newline-free paths), the
manifest text splits into exactly one line per segment in plan order, each
line is `file` followed by the single-quoted escaped path, and un-quoting the
quoted token under the tool's quoting rules is valid and recovers the original
path — so paths containing single quotes still yield a well-formed manifest. -/
theorem manifest_lines_and_escaping (paths : List String)
    (hne : paths ≠ []) (hnl : ∀ p ∈ paths, nlChar ∉ p.data) :
    splitNl (manifestContent paths).data = paths.map (fun p => (manifestLine p).data)
    ∧ ∀ p ∈ paths,
        (manifestLine p).data = "file ".data ++ squote :: (escList p.data ++ [squote])
        ∧ unquote (squote :: (escList p.data ++ [squote])) false = some p.data := by
  refine ⟨splitNl_manifest paths hne hnl, ?_⟩
  intro p _
  refine ⟨manifestLine_data p, ?_⟩
  have h1 : unquote (squote :: (escList p.data ++ [squote])) false
      = unquoteAux (escList p.data ++ [squote]) true false := by
    simp [unquote, unquoteAux]
  rw [h1]
  exact unquote_escList p.data

/-- Witness for C5 at the one-segment plan whose path is `a'b` (a single
quote inside the path). -/
theorem manifest_lines_and_escaping_witness :
    (([String.mk [Char.ofNat 97, Char.ofNat 39, Char.ofNat 98]] : List String) ≠ []
      ∧ ∀ p ∈ ([String.mk [Char.ofNat 97, Char.ofNat 39, Char.ofNat 98]] : List String),
          nlChar ∉ p.data)
    ∧ (splitNl (manifestContent [String.mk [Char.ofNat 97, Char.ofNat 39, Char.ofNat 98]]).data
        = ([String.mk [Char.ofNat 97, Char.ofNat 39, Char.ofNat 98]] : List String).map
            (fun p => (manifestLine p).data)
      ∧ ∀ p ∈ ([String.mk [Char.ofNat 97, Char.ofNat 39, Char.ofNat 98]] : List String),
          (manifestLine p).data = "file ".data ++ squote :: (escList p.data ++ [squote])
          ∧ unquote (squote :: (escList p.data ++ [squote])) false = some p.data) := by
  refine ⟨⟨by decide, by decide⟩, ?_⟩
  exact manifest_lines_and_escaping [String.mk [Char.ofNat 97, Char.ofNat 39, Char.ofNat 98]]
    (by decide) (by decide)

/-! ## Claim C10: numeric prefixes with trailing junk are accepted -/

lemma not_isWhitespace_of_isDigit {c : Char} (h : c.isDigit = true) :
    c.isWhitespace = false := by
  by_contra hw
  rw [Bool.not_eq_false] at hw
  simp [Char.isWhitespace] at hw
  rcases hw with ((rfl | rfl) | rfl) | rfl <;> exact absurd h (by decide)

lemma takeWhile_append_all {p : Char → Bool} : ∀ (l1 l2 : List Char),
    (∀ c ∈ l1, p c = true) → (∀ c, l2.head? = some c → p c = false) →
    (l1 ++ l2).takeWhile p = l1
  | [], l2, _, h2 => by
    cases l2 with
    | nil => rfl
    | cons c cs =>
      have := h2 c rfl
      simp [List.takeWhile_cons, this]
  | a :: l1, l2, h1, h2 => by
    have ha := h1 a (List.mem_cons_self _ _)
    have ih := takeWhile_append_all l1 l2 (fun c hc => h1 c (List.mem_cons_of_mem _ hc)) h2
    simp [List.takeWhile_cons, ha, ih]

lemma dropWhile_append_all {p : Char → Bool} : ∀ (l1 l2 : List Char),
    (∀ c ∈ l1, p c = true) → (∀ c, l2.head? = some c → p c = false) →
    (l1 ++ l2).dropWhile p = l2
  | [], l2, _, h2 => by
    cases l2 with
    | nil => rfl
    | cons c cs =>
      have := h2 c rfl
      simp [List.dropWhile_cons, this]
  | a :: l1, l2, h1, h2 => by
    have ha := h1 a (List.mem_cons_self _ _)
    have ih := dropWhile_append_all l1 l2 (fun c hc => h1 c (List.mem_cons_of_mem _ hc)) h2
    simp [List.dropWhile_cons, ha, ih]

lemma jsParseFloatCore_digits_junk (ds junk : List Char)
    (hne : ds ≠ []) (hd : ∀ c ∈ ds, c.isDigit = true)
    (hj : ∀ c, junk.head? = some c →
        c.isDigit = false ∧ c ≠ '.' ∧ c ≠ 'e' ∧ c ≠ 'E') :
    jsParseFloatCore (ds ++ junk) = some (digitsToNat ds) := by
  obtain ⟨d0, ds', rfl⟩ : ∃ d0 ds', ds = d0 :: ds' := by
    cases ds with
    | nil => exact absurd rfl hne
    | cons a l => exact ⟨a, l, rfl⟩
  have hd0 : d0.isDigit = true := hd d0 (List.mem_cons_self _ _)
  have hw0 : d0.isWhitespace = false := not_isWhitespace_of_isDigit hd0
  have hplus : ¬ d0 = '+' := fun he => by rw [he] at hd0; exact absurd hd0 (by decide)
  have hminus : ¬ d0 = '-' := fun he => by rw [he] at hd0; exact absurd hd0 (by decide)
  have hjd : ∀ c, junk.head? = some c → Char.isDigit c = false := fun c hc => (hj c hc).1
  have htake : (d0 :: (ds' ++ junk)).takeWhile Char.isDigit = d0 :: ds' := by
    have := takeWhile_append_all (d0 :: ds') junk hd hjd
    simpa using this
  have hdropd : (d0 :: (ds' ++ junk)).dropWhile Char.isDigit = junk := by
    have := dropWhile_append_all (d0 :: ds') junk hd hjd
    simpa using this
  have hmant : parseMantissa (d0 :: (ds' ++ junk))
      = some ((digitsToNat (d0 :: ds') : ℚ), junk) := by
    simp only [parseMantissa, htake, hdropd]
    cases junk with
    | nil => simp
    | cons j js =>
      have hdot : ¬ j = '.' := (hj j rfl).2.1
      simp [hdot]
  have hexp : applyExponent ((digitsToNat (d0 :: ds') : ℚ)) junk = (digitsToNat (d0 :: ds') : ℚ) := by
    cases junk with
    | nil => rfl
    | cons j js =>
      have he1 : ¬ j = 'e' := (hj j rfl).2.2.1
      have he2 : ¬ j = 'E' := (hj j rfl).2.2.2
      simp only [applyExponent]
      simp [he1, he2]
  have hdrop : (d0 :: (ds' ++ junk)).dropWhile Char.isWhitespace = d0 :: (ds' ++ junk) := by
    simp [List.dropWhile_cons, hw0]
  show jsParseFloatCore ((d0 :: ds') ++ junk) = some ((digitsToNat (d0 :: ds') : ℚ))
  simp only [List.cons_append]
  simp only [jsParseFloatCore, hdrop]
  simp [hplus, hminus, hmant, hexp]

/-- Claim C10: a pause column whose value starts with a run of digits followed
by trailing non-numeric characters (such as "5abc") is parsed to the value of
that numeric prefix — the field is kept, no warning is logged, and the value
is the digits' value; only values with no parseable numeric head are cleared
(per C8). -/
theorem pause_numeric_head_kept (row : CSVRow) (ds junk : List Char)
    (hs : row.pause_duration.data = ds ++ junk)
    (hne : ds ≠ []) (hd : ∀ c ∈ ds, c.isDigit = true)
    (hj : ∀ c, junk.head? = some c → c.isDigit = false ∧ c ≠ '.' ∧ c ≠ 'e' ∧ c ≠ 'E')
    (htrim : jsTrim row.pause_duration ≠ "") :
    (parseAudioSequenceRow row).1.pause_duration = some ((digitsToNat ds : ℚ))
    ∧ (parseAudioSequenceRow row).2 = false := by
  have hq : jsParseFloat row.pause_duration = some ((digitsToNat ds : ℚ)) := by
    rw [jsParseFloat, hs]
    exact jsParseFloatCore_digits_junk ds junk hne hd hj
  have hraw : row.pause_duration ≠ "" := ne_empty_of_jsTrim_ne htrim
  have hcond : (strTruthy row.pause_duration && strTruthy (jsTrim row.pause_duration)) = true := by
    simp [strTruthy, hraw, htrim]
  constructor
  · simp [parseAudioSequenceRow, hcond, hq]
  · simp [parseAudioSequenceRow, hcond, hq]

/-- Witness for C10 at the row (id 3, no clip, pause column "5abc"). -/
theorem pause_numeric_head_kept_witness :
    ((CSVRow.pause_duration ⟨"3", "", "5abc"⟩).data = ['5'] ++ ['a', 'b', 'c']
      ∧ (['5'] : List Char) ≠ []
      ∧ (∀ c ∈ (['5'] : List Char), c.isDigit = true)
      ∧ (∀ c, (['a', 'b', 'c'] : List Char).head? = some c →
          c.isDigit = false ∧ c ≠ '.' ∧ c ≠ 'e' ∧ c ≠ 'E')
      ∧ jsTrim (CSVRow.pause_duration ⟨"3", "", "5abc"⟩) ≠ "")
    ∧ (parseAudioSequenceRow ⟨"3", "", "5abc"⟩).1.pause_duration = some 5
    ∧ (parseAudioSequenceRow ⟨"3", "", "5abc"⟩).2 = false := by
  have hjw : ∀ c, (['a', 'b', 'c'] : List Char).head? = some c →
      c.isDigit = false ∧ c ≠ '.' ∧ c ≠ 'e' ∧ c ≠ 'E' := by
    intro c hc
    simp at hc
    subst hc
    exact ⟨by decide, by decide, by decide, by decide⟩
  have h := pause_numeric_head_kept ⟨"3", "", "5abc"⟩ ['5'] ['a', 'b', 'c']
    (by decide) (by decide) (by decide) hjw (by decide)
  have hv : digitsToNat ['5'] = 5 := by decide
  refine ⟨⟨by decide, by decide, by decide, hjw, by decide⟩, ?_, h.2⟩
  have h1 := h.1
  rw [hv] at h1
  simpa using h1

end AudioConcat
